import Mathlib

/-
Verification development for the n-pendulum simulator (src/math.rs, src/logic.rs,
src/ui.rs).

Modelling conventions:
* `f64` values are modelled by `ℚ` (exact real arithmetic; rounding is out of scope).
  Division is Lean's total field division, so a division by zero yields `0` where
  `f64` would yield `NaN` or `Inf`; claims touching that point are settled on the
  structural behaviour (which branches run, what shape is returned), which agrees
  between the two semantics.
* The transcendental functions `f64::cos`, `f64::sin` and `f64::to_radians` have no
  exact rational counterpart, so every definition that uses them takes explicit
  function parameters `fcos`, `fsin`, `deg2rad : ℚ → ℚ` standing for them; theorems
  assume only the properties of real cosine/sine they need (e.g. evenness of `cos`,
  `sin 0 = 0`).
* Rust `Vec<f64>` becomes `List ℚ`; in-range indexing `v[i]` becomes `List.getD v i 0`
  (all claim statements carry the length hypotheses that keep indices in range, so the
  default is never exercised there).  `Vec<Vec<f64>>` becomes `List (List ℚ)`.
* Mutating loops become `List.foldl` over the same index ranges, threading the
  mutated buffers as state.
-/

/-! ## math.rs -/

/-- Mirrors `lsum` (math.rs:14): sums the elements of a slice with an explicit loop
`sum = 0; for i in l { sum += i }`. -/
def lsum (l : List ℚ) : ℚ := l.foldl (· + ·) 0

/-- Mirrors the `NPendulumMath` struct (math.rs:23): parameters and a configuration
snapshot, all sequences 1-indexed with a dummy slot at index 0. -/
structure NPendulumMath where
  g : ℚ
  n : ℕ
  masses : List ℚ
  lengths : List ℚ
  angles : List ℚ
  ang_vels : List ℚ

/-- Mirrors `NPendulumMath::new` (math.rs:34): stores the parameters and hardcodes
`g = 9.81`. -/
def NPendulumMath.new (n : ℕ) (masses lengths angles ang_vels : List ℚ) : NPendulumMath :=
  { g := 981/100, n := n, masses := masses, lengths := lengths,
    angles := angles, ang_vels := ang_vels }

/-- Mirrors `NPendulumMath::set_mass_matrix` (math.rs:47): for `row, column` in `1..=n`,
entry `lsum(masses[max(row,column)..]) * lengths[row] * lengths[column]
* cos(angles[row] - angles[column])`; rows are pushed in order, so the returned matrix
is 0-indexed. `fcos` stands for `f64::cos`. -/
def NPendulumMath.set_mass_matrix (fcos : ℚ → ℚ) (m : NPendulumMath) : List (List ℚ) :=
  (List.range m.n).map (fun r =>
    (List.range m.n).map (fun c =>
      let row := r + 1
      let column := c + 1
      let k := max row column
      let mass := lsum (m.masses.drop k)
      let length_term := m.lengths.getD row 0 * m.lengths.getD column 0
      let cos_term := fcos (m.angles.getD row 0 - m.angles.getD column 0)
      mass * length_term * cos_term))

/-- Mirrors `NPendulumMath::set_centripetal_matrix` (math.rs:66): for `i` in `1..=n`,
accumulates over `j` in `1..=n` the term
`lsum(masses[max(i,j)..]) * lengths[i] * lengths[j] * sin(angles[i] - angles[j])
* ang_vels[j]^2`. `fsin` stands for `f64::sin`. -/
def NPendulumMath.set_centripetal_matrix (fsin : ℚ → ℚ) (m : NPendulumMath) : List ℚ :=
  (List.range m.n).map (fun i0 =>
    (List.range m.n).foldl (fun f_term j0 =>
      let i := i0 + 1
      let j := j0 + 1
      let m_val := lsum (m.masses.drop (max i j))
      let lilj := m.lengths.getD i 0 * m.lengths.getD j 0
      let sin_val := fsin (m.angles.getD i 0 - m.angles.getD j 0)
      let velsq := m.ang_vels.getD j 0 * m.ang_vels.getD j 0
      f_term + m_val * lilj * sin_val * velsq) 0)

/-- Mirrors `NPendulumMath::set_grav_matrix` (math.rs:86): for `i` in `1..=n`, entry
`lsum(masses[i..]) * g * lengths[i] * sin(angles[i])`. `fsin` stands for `f64::sin`. -/
def NPendulumMath.set_grav_matrix (fsin : ℚ → ℚ) (m : NPendulumMath) : List ℚ :=
  (List.range m.n).map (fun i0 =>
    let i := i0 + 1
    let mass := lsum (m.masses.drop i)
    mass * m.g * m.lengths.getD i 0 * fsin (m.angles.getD i 0))

/-! ## logic.rs: the linear solver -/

/-- Matrix read `mat[r][c]` (logic.rs, inside `solve_linear_system`). -/
def getM (mat : List (List ℚ)) (r c : ℕ) : ℚ := (mat.getD r []).getD c 0

/-- Matrix write `mat[r][c] = v`. -/
def setM (mat : List (List ℚ)) (r c : ℕ) (v : ℚ) : List (List ℚ) :=
  mat.set r ((mat.getD r []).set c v)

/-- Pivot search of `solve_linear_system` (logic.rs:25-32): starting from `max_row = i`,
scan `k` in `i+1..n` and keep the row with the largest `|mat[k][i]|` (strict
improvement only, as in the source's `>`). -/
def findMaxRow (mat : List (List ℚ)) (i n : ℕ) : ℕ :=
  (List.range' (i+1) (n - (i+1))).foldl (fun max_row k =>
    if |getM mat k i| > |getM mat max_row i| then k else max_row) i

/-- `Vec::swap` on the rows of the matrix (logic.rs:34). -/
def swapRows (mat : List (List ℚ)) (i j : ℕ) : List (List ℚ) :=
  (mat.set i (mat.getD j [])).set j (mat.getD i [])

/-- `Vec::swap` on the right-hand side vector (logic.rs:35). -/
def swapVec (v : List ℚ) (i j : ℕ) : List ℚ :=
  (v.set i (v.getD j 0)).set j (v.getD i 0)

/-- Elimination of one row `k` below pivot `i` (logic.rs:37-50): compute
`c = -mat[k][i] / mat[i][i]`, then for `j` in `i..n` set `mat[k][i]` to `0` and add
`c * mat[i][j]` to every other `mat[k][j]`, and finally add `c * rhs[i]` to `rhs[k]`. -/
def elimRow (n i : ℕ) (st : List (List ℚ) × List ℚ) (k : ℕ) : List (List ℚ) × List ℚ :=
  let c := -(getM st.1 k i) / getM st.1 i i
  let mat := (List.range' i (n - i)).foldl (fun mat j =>
      if i = j then setM mat k j 0
      else setM mat k j (getM mat k j + c * getM mat i j)) st.1
  (mat, st.2.set k (st.2.getD k 0 + c * st.2.getD i 0))

/-- One iteration of the forward-elimination loop for pivot column `i`
(logic.rs:22-51): find the pivot row, swap it into position `i` in both the matrix and
the right-hand side, then eliminate every row below. -/
def pivotStep (n : ℕ) (st : List (List ℚ) × List ℚ) (i : ℕ) : List (List ℚ) × List ℚ :=
  let max_row := findMaxRow st.1 i n
  let mat := swapRows st.1 i max_row
  let rhs := swapVec st.2 i max_row
  (List.range' (i+1) (n - (i+1))).foldl (elimRow n i) (mat, rhs)

/-- Back-substitution (logic.rs:53-62): `x` starts as `vec![0.0; n]`; for `i` from
`n-1` down to `0`, `sum_ax = Σ_{j in i+1..n} mat[i][j] * x[j]` and
`x[i] = (rhs[i] - sum_ax) / mat[i][i]`. -/
def backSubstitute (n : ℕ) (mat : List (List ℚ)) (rhs : List ℚ) : List ℚ :=
  (List.range n).reverse.foldl (fun x i =>
    let sum_ax := (List.range' (i+1) (n - (i+1))).foldl
      (fun s j => s + getM mat i j * x.getD j 0) 0
    x.set i ((rhs.getD i 0 - sum_ax) / getM mat i i)) (List.replicate n 0)

/-- Mirrors `solve_linear_system` (logic.rs:16-64): Gaussian elimination with partial
pivoting on private copies of `a` and `b` (`a.to_vec()`, `b.to_vec()`), followed by
back-substitution; `n = b.len()`.  The source has no failure path: it always returns
the vector produced by back-substitution. -/
def solve_linear_system (a : List (List ℚ)) (b : List ℚ) : List ℚ :=
  let n := b.length
  let st := (List.range n).foldl (pivotStep n) (a, b)
  backSubstitute n st.1 st.2

/-! ## logic.rs: the solver struct -/

/-- Mirrors the `NPendulumSolver` struct (logic.rs:67): fixed parameters, sequences
1-indexed with a dummy slot 0. -/
structure NPendulumSolver where
  n : ℕ
  masses : List ℚ
  lengths : List ℚ

/-- Mirrors `NPendulumSolver::new` (logic.rs:76). -/
def NPendulumSolver.new (n : ℕ) (masses lengths : List ℚ) : NPendulumSolver :=
  { n := n, masses := masses, lengths := lengths }

/-- Mirrors `NPendulumSolver::accelerations` (logic.rs:85): builds a fresh
`NPendulumMath`, takes `M`, `C`, `G`, forms `rhs[i] = -(C[i] + G[i])` for `i` in
`0..n`, and solves `M x = rhs`. -/
def NPendulumSolver.accelerations (fcos fsin : ℚ → ℚ) (s : NPendulumSolver)
    (angles ang_vels : List ℚ) : List ℚ :=
  let math := NPendulumMath.new s.n s.masses s.lengths angles ang_vels
  let m_mat := math.set_mass_matrix fcos
  let c_vec := math.set_centripetal_matrix fsin
  let g_vec := math.set_grav_matrix fsin
  let rhs := (List.range s.n).map (fun i => -(c_vec.getD i 0 + g_vec.getD i 0))
  solve_linear_system m_mat rhs

/-- Mirrors `NPendulumSolver::deriv` (logic.rs:107): from `y = [θ1..θn, ω1..ωn]`
builds the 1-indexed `angles = [0, θ1..θn]` and `ang_vels = [0, ω1..ωn]`, computes the
accelerations `α`, and returns `[ω1..ωn, α1..αn]`.  The time argument `t` is unused
(autonomous ODE). -/
def NPendulumSolver.deriv (fcos fsin : ℚ → ℚ) (s : NPendulumSolver)
    (y : List ℚ) (_t : ℚ) : List ℚ :=
  let n := s.n
  let angles := 0 :: y.take n
  let ang_vels := 0 :: (y.drop n).take n
  let alpha := s.accelerations fcos fsin angles ang_vels
  (y.drop n).take n ++ alpha

/-- Mirrors `NPendulumSolver::rk4_step` (logic.rs:122): the four derivative
evaluations and the weighted update, with the source's literal arithmetic
(`0.5 * dt`, `dt / 6.0`). -/
def NPendulumSolver.rk4_step (fcos fsin : ℚ → ℚ) (s : NPendulumSolver)
    (y : List ℚ) (t dt : ℚ) : List ℚ :=
  let k1 := s.deriv fcos fsin y t
  let y2 := (List.range y.length).map (fun i => y.getD i 0 + 1/2 * dt * k1.getD i 0)
  let k2 := s.deriv fcos fsin y2 (t + 1/2 * dt)
  let y3 := (List.range y.length).map (fun i => y.getD i 0 + 1/2 * dt * k2.getD i 0)
  let k3 := s.deriv fcos fsin y3 (t + 1/2 * dt)
  let y4 := (List.range y.length).map (fun i => y.getD i 0 + dt * k3.getD i 0)
  let k4 := s.deriv fcos fsin y4 (t + dt)
  (List.range y.length).map (fun i =>
    y.getD i 0 + dt / 6 * (k1.getD i 0 + 2 * k2.getD i 0 + 2 * k3.getD i 0 + k4.getD i 0))

/-- The `for _ in 1..n_points` loop of `NPendulumSolver::solve` (logic.rs:156-162),
by recursion on the remaining iteration count; state is `(t, sol, y, curr_t)`, and
each iteration advances `y` by one RK4 step, advances `curr_t` by `dt`, and appends
to `t` and `sol`. -/
def NPendulumSolver.solveLoop (fcos fsin : ℚ → ℚ) (s : NPendulumSolver) (dt : ℚ) :
    ℕ → List ℚ × List (List ℚ) × List ℚ × ℚ → List ℚ × List (List ℚ) × List ℚ × ℚ
  | 0, st => st
  | m+1, (t, sol, y, curr_t) =>
    let y1 := s.rk4_step fcos fsin y curr_t dt
    let curr_t1 := curr_t + dt
    NPendulumSolver.solveLoop fcos fsin s dt m (t ++ [curr_t1], sol ++ [y1], y1, curr_t1)

/-- Mirrors `NPendulumSolver::solve` (logic.rs:140): `dt = t_max / (n_points - 1)`,
initial state copied from slots `1..=n` of the 1-indexed inputs, then `n_points - 1`
loop iterations starting from `t = [0]`, `sol = [y0]`, `curr_t = 0`. -/
def NPendulumSolver.solve (fcos fsin : ℚ → ℚ) (s : NPendulumSolver)
    (initial_angles initial_ang_vels : List ℚ) (t_max : ℚ) (n_points : ℕ) :
    List ℚ × List (List ℚ) :=
  let n := s.n
  let num_steps := n_points - 1
  let dt := t_max / (num_steps : ℚ)
  let y0 := (initial_angles.drop 1).take n ++ (initial_ang_vels.drop 1).take n
  let res := NPendulumSolver.solveLoop fcos fsin s dt num_steps ([0], [y0], y0, 0)
  (res.1, res.2.1)

/-! ## ui.rs -/

/-- Mirrors the dimension handling and core invocation of `simulate_handler`
(ui.rs:35-101), after string parsing (which is outside the core, §6 of the spec):
the handler checks only `masses.len() == n` (ui.rs:43) — returning the failure
response, modelled as `none`, when it mismatches — then converts angles from degrees
(`deg2rad` stands for `f64::to_radians`), prepends the dummy zero slot to each
sequence, zero-initializes the velocities, and runs the solver.  The lengths and
initial-angle sequences are passed through with no dimension check. -/
def simulate_handler_sim (fcos fsin deg2rad : ℚ → ℚ) (n : ℕ)
    (masses lengths initial_angles : List ℚ) (t_max : ℚ) (n_points : ℕ) :
    Option (List ℚ × List (List ℚ)) :=
  if masses.length = n then
    let initial_angles_rad := initial_angles.map deg2rad
    let full_masses := 0 :: masses
    let full_lengths := 0 :: lengths
    let full_initial_angles := 0 :: initial_angles_rad
    let initial_ang_vels := List.replicate (n+1) 0
    let solver := NPendulumSolver.new n full_masses full_lengths
    some (solver.solve fcos fsin full_initial_angles initial_ang_vels t_max n_points)
  else none

/-! ## The borrow model for the linear solver (claim C9) -/

/-- Memory model for one call to `solve_linear_system`: the caller-owned buffers `a`
and `b` (borrowed as `&[Vec<f64>]` / `&[f64]`) and the callee's private copies `mat`
and `rhs` (`a.to_vec()`, `b.to_vec()`, logic.rs:19-20), which are the only buffers the
elimination loops write. -/
structure GaussMem where
  a : List (List ℚ)
  b : List ℚ
  mat : List (List ℚ)
  rhs : List ℚ

/-- One call to `solve_linear_system` against the memory model: the private copies are
initialized from `a` and `b`, all mutation is threaded through them, and the final
memory keeps the caller slots as they were. -/
def solve_linear_system_call (mem : GaussMem) : List ℚ × GaussMem :=
  let n := mem.b.length
  let mat0 := mem.a
  let rhs0 := mem.b
  let st := (List.range n).foldl (pivotStep n) (mat0, rhs0)
  (backSubstitute n st.1 st.2, { mem with mat := st.1, rhs := st.2 })

/-! ## Generic list lemmas -/

/-- `getD` of a `map` over `List.range` evaluates the mapped function. -/
lemma getD_map_range {α : Type} (f : ℕ → α) (n i : ℕ) (d : α) (h : i < n) :
    ((List.range n).map f).getD i d = f i := by
  rw [List.getD_eq_getElem?_getD]
  simp [List.getElem?_map, List.getElem?_range, h]

/-- Folding a length-preserving update over any index list preserves the length. -/
lemma foldl_length_invariant {β : Type} (f : List ℚ → β → List ℚ)
    (hf : ∀ x b, (f x b).length = x.length) (l : List β) (x : List ℚ) :
    (l.foldl f x).length = x.length := by
  induction l generalizing x with
  | nil => rfl
  | cons a l ih => rw [List.foldl_cons, ih, hf]

/-- A fold whose step function fixes every state leaves the seed unchanged. -/
lemma foldl_fixed {α β : Type} (f : α → β → α) (l : List β) (s : α)
    (h : ∀ a, ∀ b ∈ l, f a b = a) : l.foldl f s = s := by
  induction l generalizing s with
  | nil => rfl
  | cons a l ih =>
    rw [List.foldl_cons, h s a (List.mem_cons_self a l)]
    exact ih s (fun x b hb => h x b (List.mem_cons_of_mem a hb))

/-- A fold preserves any invariant its step function preserves. -/
lemma foldl_preserves {α β : Type} (P : α → Prop) (f : α → β → α) (l : List β) (s : α)
    (h : ∀ a b, P a → P (f a b)) (hs : P s) : P (l.foldl f s) := by
  induction l generalizing s with
  | nil => exact hs
  | cons a l ih => exact ih (f s a) (h s a hs)

/-- Two folds with step functions that agree on the traversed elements coincide. -/
lemma foldl_congr_mem {α β : Type} (l : List β) (f g : α → β → α) (s : α)
    (h : ∀ a, ∀ b ∈ l, f a b = g a b) : l.foldl f s = l.foldl g s := by
  induction l generalizing s with
  | nil => rfl
  | cons a l ih =>
    rw [List.foldl_cons, List.foldl_cons, h s a (List.mem_cons_self a l)]
    exact ih (g s a) (fun x b hb => h x b (List.mem_cons_of_mem a hb))

/-- Folding `+` from an arbitrary seed splits off the seed. -/
lemma foldl_add_shift (l : List ℚ) (b : ℚ) :
    l.foldl (· + ·) b = b + l.foldl (· + ·) 0 := by
  induction l generalizing b with
  | nil => simp
  | cons a l ih =>
    rw [List.foldl_cons, List.foldl_cons, ih, ih (0 + a)]
    ring

/-- `lsum` of a cons. -/
lemma lsum_cons (a : ℚ) (l : List ℚ) : lsum (a :: l) = a + lsum l := by
  unfold lsum
  rw [List.foldl_cons, foldl_add_shift]
  simp [lsum]

/-- `lsum` over the tail `l[k..]` is the sum of the entries at indices `k, k+1, ...`. -/
lemma lsum_drop (l : List ℚ) (k : ℕ) :
    lsum (l.drop k) = ∑ i ∈ Finset.range (l.length - k), l.getD (k + i) 0 := by
  induction l generalizing k with
  | nil => simp [lsum]
  | cons a l ih =>
    cases k with
    | zero =>
      have h0 := ih 0
      rw [List.drop_zero] at h0
      rw [List.drop_zero, lsum_cons, h0]
      simp only [List.length_cons, Nat.sub_zero, zero_add]
      rw [Finset.sum_range_succ']
      simp [List.getD_cons_succ, List.getD_cons_zero, add_comm]
    | succ k =>
      rw [List.drop_succ_cons, ih k, List.length_cons]
      rw [Nat.succ_sub_succ]
      refine Finset.sum_congr rfl (fun i _ => ?_)
      simp [List.getD_cons_succ, Nat.succ_add]

/-- If every element of a list is zero, every `getD` read with default `0` is zero. -/
lemma getD_zero_of_all_zero (l : List ℚ) (h : ∀ x ∈ l, x = 0) (i : ℕ) :
    l.getD i 0 = 0 := by
  by_cases hi : i < l.length
  · rw [List.getD_eq_getElem l 0 hi]
    exact h _ (List.getElem_mem hi)
  · rw [List.getD_eq_default]
    omega

/-- Setting any position of an all-zero list to zero keeps it all-zero. -/
lemma all_zero_set (l : List ℚ) (i : ℕ) (h : ∀ x ∈ l, x = 0) :
    ∀ x ∈ l.set i 0, x = 0 := by
  intro x hx
  rcases List.mem_or_eq_of_mem_set hx with hmem | rfl
  · exact h x hmem
  · rfl

/-! ## Shape facts about the linear solver -/

/-- Back-substitution returns a vector of length `n`: it only ever `set`s positions of
the initial `vec![0.0; n]`. -/
lemma backSubstitute_length (n : ℕ) (mat : List (List ℚ)) (rhs : List ℚ) :
    (backSubstitute n mat rhs).length = n := by
  unfold backSubstitute
  exact (foldl_length_invariant _ (fun x b => by simp) _ _).trans (by simp)

/-- The spec's classic fourth-order Runge-Kutta update (§4.4), written from the spec's
own words for comparison with `NPendulumSolver.rk4_step`: `k1 = f(y)`,
`k2 = f(y + dt/2 k1)`, `k3 = f(y + dt/2 k2)`, `k4 = f(y + dt k3)`, and the result is
`y + dt/6 (k1 + 2 k2 + 2 k3 + k4)`, componentwise. -/
def rk4_classic (f : List ℚ → ℚ → List ℚ) (y : List ℚ) (t dt : ℚ) : List ℚ :=
  let k1 := f y t
  let k2 := f ((List.range y.length).map (fun i => y.getD i 0 + dt/2 * k1.getD i 0)) (t + dt/2)
  let k3 := f ((List.range y.length).map (fun i => y.getD i 0 + dt/2 * k2.getD i 0)) (t + dt/2)
  let k4 := f ((List.range y.length).map (fun i => y.getD i 0 + dt * k3.getD i 0)) (t + dt)
  (List.range y.length).map (fun i =>
    y.getD i 0 + dt/6 * (k1.getD i 0 + 2 * k2.getD i 0 + 2 * k3.getD i 0 + k4.getD i 0))

/-- C5: a single integrator step computes exactly the classic fourth-order Runge-Kutta
update driven by the solver's derivative function, componentwise, for every state `y`,
time `t` and step size `dt`. -/
theorem rk4_step_is_classic_rk4 (fcos fsin : ℚ → ℚ) (s : NPendulumSolver)
    (y : List ℚ) (t dt : ℚ) :
    s.rk4_step fcos fsin y t dt = rk4_classic (s.deriv fcos fsin) y t dt := by
  have h2 : ∀ x : ℚ, 1/2 * dt * x = dt/2 * x := fun x => by ring
  have ht : t + 1/2 * dt = t + dt/2 := by ring
  simp only [NPendulumSolver.rk4_step, rk4_classic, h2, ht]

/-- C9: `solve_linear_system` never mutates its caller-owned arguments — in the memory
model of one call, the caller slots `a` and `b` are unchanged after the call, and the
returned vector is the pure function of their initial values. -/
theorem solve_linear_system_no_caller_mutation (mem : GaussMem) :
    (solve_linear_system_call mem).2.a = mem.a ∧
    (solve_linear_system_call mem).2.b = mem.b ∧
    (solve_linear_system_call mem).1 = solve_linear_system mem.a mem.b :=
  ⟨rfl, rfl, rfl⟩

/-- C1 (amended): `solve_linear_system` has no failure path — for every matrix and
right-hand side, singular or not, it runs elimination and back-substitution to the end
and returns a vector of full length `b.len()`. -/
theorem solve_linear_system_always_returns (a : List (List ℚ)) (b : List ℚ) :
    (solve_linear_system a b).length = b.length := by
  simp only [solve_linear_system]
  exact backSubstitute_length ..

/-- C1 (counterexample): on the singular 2×2 system with the all-zero matrix — where
no candidate row has a non-zero entry in either pivot column — `solve_linear_system`
does not fail: it returns an ordinary vector.  (Over `f64` the same run divides by the
zero pivot and silently returns NaN components; in this exact model the total division
makes them `0`.  Either way a vector is returned and no error is signalled.) -/
theorem singular_system_returns_vector :
    solve_linear_system [[0,0],[0,0]] [(1:ℚ),1] = [0,0] := by
  norm_num [solve_linear_system, pivotStep, elimRow, findMaxRow, swapRows, swapVec,
    backSubstitute, getM, setM, List.range_succ, List.range'_succ, List.replicate]

/-- C8 (amended): the HTTP handler's dimension validation checks only the masses
sequence — the request is rejected exactly when `masses.len() != n`, and the lengths
of `lengths` and `initial_angles` have no influence on whether the core is invoked. -/
theorem handler_dimension_check_only_masses (fcos fsin deg2rad : ℚ → ℚ) (n : ℕ)
    (masses lengths initial_angles : List ℚ) (t_max : ℚ) (n_points : ℕ) :
    (simulate_handler_sim fcos fsin deg2rad n masses lengths initial_angles
        t_max n_points).isSome = true
      ↔ masses.length = n := by
  unfold simulate_handler_sim
  split <;> simp [*]

/-! ## Characterizing the integration loop -/

/-- The sequence of integrator states: `simFrom fcos fsin s dt y c k` is the state
after `k` RK4 steps of `solve`'s loop starting from state `y` at time `c`. -/
def simFrom (fcos fsin : ℚ → ℚ) (s : NPendulumSolver) (dt : ℚ) (y : List ℚ) (c : ℚ) : ℕ → List ℚ
  | 0 => y
  | k+1 => s.rk4_step fcos fsin (simFrom fcos fsin s dt y c k) (c + (k : ℚ) * dt) dt

/-- Stepping once and then `k` times is stepping `k+1` times. -/
lemma simFrom_succ_shift (fcos fsin : ℚ → ℚ) (s : NPendulumSolver) (dt : ℚ)
    (y : List ℚ) (c : ℚ) (k : ℕ) :
    simFrom fcos fsin s dt y c (k+1) =
      simFrom fcos fsin s dt (s.rk4_step fcos fsin y c dt) (c + dt) k := by
  induction k with
  | zero => simp [simFrom]
  | succ k ih =>
    have harith : c + ((k+1 : ℕ) : ℚ) * dt = (c + dt) + (k : ℚ) * dt := by push_cast; ring
    calc simFrom fcos fsin s dt y c (k+1+1)
        = s.rk4_step fcos fsin (simFrom fcos fsin s dt y c (k+1))
            (c + ((k+1 : ℕ) : ℚ) * dt) dt := rfl
      _ = s.rk4_step fcos fsin
            (simFrom fcos fsin s dt (s.rk4_step fcos fsin y c dt) (c + dt) k)
            (c + ((k+1 : ℕ) : ℚ) * dt) dt := by rw [ih]
      _ = s.rk4_step fcos fsin
            (simFrom fcos fsin s dt (s.rk4_step fcos fsin y c dt) (c + dt) k)
            ((c + dt) + (k : ℚ) * dt) dt := by rw [harith]
      _ = simFrom fcos fsin s dt (s.rk4_step fcos fsin y c dt) (c + dt) (k+1) := rfl

/-- Closed form of the `solve` loop: starting from accumulated lists `t` and `sol`,
state `y` and clock `c`, after `m` iterations the time list has gained
`c + dt, ..., c + m*dt`, the trajectory has gained the next `m` integrator states, and
the final state and clock are `simFrom ... m` and `c + m*dt`. -/
lemma solveLoop_eq (fcos fsin : ℚ → ℚ) (s : NPendulumSolver) (dt : ℚ) (m : ℕ) :
    ∀ (t : List ℚ) (sol : List (List ℚ)) (y : List ℚ) (c : ℚ),
    NPendulumSolver.solveLoop fcos fsin s dt m (t, sol, y, c) =
      (t ++ (List.range m).map (fun i => c + ((i+1 : ℕ) : ℚ) * dt),
       sol ++ (List.range m).map (fun i => simFrom fcos fsin s dt y c (i+1)),
       simFrom fcos fsin s dt y c m,
       c + (m : ℚ) * dt) := by
  induction m with
  | zero =>
    intro t sol y c
    simp [NPendulumSolver.solveLoop, simFrom]
  | succ m ih =>
    intro t sol y c
    rw [NPendulumSolver.solveLoop, ih]
    simp only [Prod.mk.injEq]
    refine ⟨?_, ?_, ?_, ?_⟩
    · rw [List.append_assoc, List.singleton_append, List.range_succ_eq_map,
        List.map_cons, List.map_map]
      refine congrArg (t ++ ·) (congrArg₂ (· :: ·) (by push_cast; ring) ?_)
      refine List.map_congr_left (fun i _ => ?_)
      simp only [Function.comp_apply, Nat.succ_eq_add_one]
      push_cast
      ring
    · rw [List.append_assoc, List.singleton_append, List.range_succ_eq_map,
        List.map_cons, List.map_map]
      refine congrArg (sol ++ ·) (congrArg₂ (· :: ·) ?_ ?_)
      · rw [simFrom_succ_shift]
        rfl
      · refine List.map_congr_left (fun i _ => ?_)
        simp only [Function.comp_apply, Nat.succ_eq_add_one]
        rw [← simFrom_succ_shift]
    · rw [← simFrom_succ_shift]
    · push_cast
      ring

/-- Closed form of `NPendulumSolver::solve`: the time list is
`[0, dt, 2*dt, ...]` (`n_points` entries) and the trajectory is the initial state
followed by the successive integrator states. -/
lemma solve_eq (fcos fsin : ℚ → ℚ) (s : NPendulumSolver)
    (ia iv : List ℚ) (t_max : ℚ) (n_points : ℕ) :
    s.solve fcos fsin ia iv t_max n_points =
      ((0 : ℚ) :: (List.range (n_points - 1)).map
          (fun i => ((i+1 : ℕ) : ℚ) * (t_max / ((n_points - 1 : ℕ) : ℚ))),
       ((ia.drop 1).take s.n ++ (iv.drop 1).take s.n) ::
         (List.range (n_points - 1)).map
          (fun i => simFrom fcos fsin s (t_max / ((n_points - 1 : ℕ) : ℚ))
            ((ia.drop 1).take s.n ++ (iv.drop 1).take s.n) 0 (i+1))) := by
  simp only [NPendulumSolver.solve]
  rw [solveLoop_eq]
  simp [zero_add]

/-- The trajectory returned by `solve` has `(n_points - 1) + 1` samples, and so does
the time list. -/
lemma solve_lengths (fcos fsin : ℚ → ℚ) (s : NPendulumSolver)
    (ia iv : List ℚ) (t_max : ℚ) (n_points : ℕ) :
    (s.solve fcos fsin ia iv t_max n_points).1.length = (n_points - 1) + 1 ∧
    (s.solve fcos fsin ia iv t_max n_points).2.length = (n_points - 1) + 1 := by
  rw [solve_eq]
  simp [add_comm]

/-- `getD` into a cons of a mapped range: the head at 0, the mapped value after. -/
lemma getD_cons_map_range {α : Type} (a : α) (f : ℕ → α) (n k : ℕ) (d : α) (hk : k ≤ n) :
    (a :: (List.range n).map f).getD k d = if k = 0 then a else f (k - 1) := by
  cases k with
  | zero => simp
  | succ j =>
    rw [List.getD_cons_succ, getD_map_range f n j d (by omega)]
    simp

/-- C2: for every `t_max > 0` and `n_points ≥ 2`, `solve` with `dt = t_max/(n_points-1)`
returns exactly `n_points` (time, state) samples; sample 0 has time 0 and is the given
initial state (angles then velocities, dummy slot dropped); the time of sample `i` is
`i*dt` (so the times are evenly spaced over `[0, t_max]`, the last being exactly
`t_max`); and each sample `i ≥ 1` is one RK4 step from sample `i-1`, taken at time
`(i-1)*dt`. -/
theorem solve_trajectory_samples (fcos fsin : ℚ → ℚ) (s : NPendulumSolver)
    (ia iv : List ℚ) (t_max : ℚ) (n_points : ℕ)
    (hnp : 2 ≤ n_points) (_ht : 0 < t_max)
    (hia : ia.length = s.n + 1) (hiv : iv.length = s.n + 1) :
    (s.solve fcos fsin ia iv t_max n_points).1.length = n_points ∧
    (s.solve fcos fsin ia iv t_max n_points).2.length = n_points ∧
    (s.solve fcos fsin ia iv t_max n_points).2.getD 0 [] = ia.drop 1 ++ iv.drop 1 ∧
    (∀ i ∈ Finset.range n_points,
      (s.solve fcos fsin ia iv t_max n_points).1.getD i 0
        = (i : ℚ) * (t_max / ((n_points - 1 : ℕ) : ℚ))) ∧
    (s.solve fcos fsin ia iv t_max n_points).1.getD (n_points - 1) 0 = t_max ∧
    (∀ i ∈ Finset.Icc 1 (n_points - 1),
      (s.solve fcos fsin ia iv t_max n_points).2.getD i []
        = s.rk4_step fcos fsin
            ((s.solve fcos fsin ia iv t_max n_points).2.getD (i-1) [])
            (((i - 1 : ℕ) : ℚ) * (t_max / ((n_points - 1 : ℕ) : ℚ)))
            (t_max / ((n_points - 1 : ℕ) : ℚ))) := by
  have htk : (ia.drop 1).take s.n = ia.drop 1 :=
    List.take_of_length_le (by simp [hia])
  have htkv : (iv.drop 1).take s.n = iv.drop 1 :=
    List.take_of_length_le (by simp [hiv])
  rw [solve_eq]
  have htimes : ∀ i ∈ Finset.range n_points,
      ((0 : ℚ) :: (List.range (n_points - 1)).map
          (fun i => ((i+1 : ℕ) : ℚ) * (t_max / ((n_points - 1 : ℕ) : ℚ)))).getD i 0
        = (i : ℚ) * (t_max / ((n_points - 1 : ℕ) : ℚ)) := by
    intro i hi
    rw [Finset.mem_range] at hi
    rw [getD_cons_map_range _ _ _ _ _ (by omega)]
    cases i with
    | zero => simp
    | succ j => simp
  have hgetsol : ∀ k, k ≤ n_points - 1 →
      ((((ia.drop 1).take s.n ++ (iv.drop 1).take s.n) ::
        (List.range (n_points - 1)).map
          (fun i => simFrom fcos fsin s (t_max / ((n_points - 1 : ℕ) : ℚ))
            ((ia.drop 1).take s.n ++ (iv.drop 1).take s.n) 0 (i+1))).getD k []
        = simFrom fcos fsin s (t_max / ((n_points - 1 : ℕ) : ℚ))
            ((ia.drop 1).take s.n ++ (iv.drop 1).take s.n) 0 k) := by
    intro k hk
    rw [getD_cons_map_range _ _ _ _ _ hk]
    cases k with
    | zero => simp [simFrom]
    | succ j => simp
  refine ⟨by simp; omega, by simp; omega, ?_, htimes, ?_, ?_⟩
  · rw [List.getD_cons_zero, htk, htkv]
  · rw [htimes (n_points - 1) (Finset.mem_range.mpr (by omega))]
    have hne : ((n_points - 1 : ℕ) : ℚ) ≠ 0 := Nat.cast_ne_zero.mpr (by omega)
    rw [mul_comm, div_mul_cancel₀ _ hne]
  · intro i hi
    rw [Finset.mem_Icc] at hi
    obtain ⟨j, rfl⟩ : ∃ j, i = j + 1 := ⟨i - 1, by omega⟩
    rw [hgetsol (j+1) (by omega), Nat.add_sub_cancel, hgetsol j (by omega)]
    show s.rk4_step fcos fsin _ (0 + (j : ℚ) * _) _ = _
    rw [zero_add]

/-- C8 (counterexample): with `n = 2`, a valid masses list `[1,1]` but a lengths list
`[1,1,1]` of length 3 ≠ n, the handler does not reject the request and the core does
not fail fast: a full 2-sample trajectory is computed and returned.  (`fcos`, `fsin`
and the degree conversion are instantiated with simple total stand-ins, which is
enough to exercise the dimension-handling control flow being refuted.) -/
theorem dimension_mismatch_still_computes :
    ¬ ([(1:ℚ), 1, 1].length = 2) ∧
    (simulate_handler_sim (fun _ => 1) (fun _ => 0) (fun x => x) 2
        [1, 1] [1, 1, 1] [0, 0] 1 2).isSome = true ∧
    ((simulate_handler_sim (fun _ => 1) (fun _ => 0) (fun x => x) 2
        [1, 1] [1, 1, 1] [0, 0] 1 2).getD ([], [])).2.length = 2 := by
  refine ⟨by simp, by simp [simulate_handler_sim], ?_⟩
  have hs := (solve_lengths (fun _ => (1:ℚ)) (fun _ => 0)
    (NPendulumSolver.new 2 [0, 1, 1] [0, 1, 1, 1])
    [0, 0, 0] (List.replicate 3 0) 1 2).2
  simp only [simulate_handler_sim, List.length_cons, List.length_nil, List.map_cons,
    List.map_nil, if_pos, Option.getD_some]
  simpa using hs

/-! ## Entry formulas for the dynamics matrices -/

/-- Raw entry of the mass matrix, in 0-based row/column coordinates. -/
lemma set_mass_matrix_entry (fcos : ℚ → ℚ) (m : NPendulumMath) (r c : ℕ)
    (hr : r < m.n) (hc : c < m.n) :
    ((m.set_mass_matrix fcos).getD r []).getD c 0 =
      lsum (m.masses.drop (max (r+1) (c+1))) *
        (m.lengths.getD (r+1) 0 * m.lengths.getD (c+1) 0) *
        fcos (m.angles.getD (r+1) 0 - m.angles.getD (c+1) 0) := by
  unfold NPendulumMath.set_mass_matrix
  rw [getD_map_range _ _ _ _ hr, getD_map_range _ _ _ _ hc]

/-- Raw entry of the gravity vector, in 0-based coordinates. -/
lemma set_grav_matrix_entry (fsin : ℚ → ℚ) (m : NPendulumMath) (i : ℕ) (hi : i < m.n) :
    (m.set_grav_matrix fsin).getD i 0 =
      lsum (m.masses.drop (i+1)) * m.g * m.lengths.getD (i+1) 0 *
        fsin (m.angles.getD (i+1) 0) := by
  unfold NPendulumMath.set_grav_matrix
  rw [getD_map_range _ _ _ _ hi]

/-- Raw entry of the centripetal vector, in 0-based coordinates. -/
lemma set_centripetal_matrix_entry (fsin : ℚ → ℚ) (m : NPendulumMath) (i : ℕ)
    (hi : i < m.n) :
    (m.set_centripetal_matrix fsin).getD i 0 =
      (List.range m.n).foldl (fun f_term j0 =>
        f_term + lsum (m.masses.drop (max (i+1) (j0+1))) *
          (m.lengths.getD (i+1) 0 * m.lengths.getD (j0+1) 0) *
          fsin (m.angles.getD (i+1) 0 - m.angles.getD (j0+1) 0) *
          (m.ang_vels.getD (j0+1) 0 * m.ang_vels.getD (j0+1) 0)) 0 := by
  unfold NPendulumMath.set_centripetal_matrix
  rw [getD_map_range _ _ _ _ hi]

/-- C3: every entry of the matrix returned by `set_mass_matrix` satisfies
`M[r][c] = (Σ masses[k] for k from max(r,c) to n) * lengths[r] * lengths[c]
* cos(angles[r] - angles[c])` for `r, c` in `1..n` (entries live at 0-based positions
`r-1, c-1` of the returned rows). -/
theorem mass_matrix_entry_formula (fcos : ℚ → ℚ) (n : ℕ)
    (masses lengths angles ang_vels : List ℚ)
    (_hn : 2 ≤ n) (hm : masses.length = n + 1) :
    ∀ r ∈ Finset.Icc 1 n, ∀ c ∈ Finset.Icc 1 n,
      ((((NPendulumMath.new n masses lengths angles ang_vels).set_mass_matrix fcos).getD
          (r-1) []).getD (c-1) 0)
        = (∑ k ∈ Finset.Icc (max r c) n, masses.getD k 0) *
            (lengths.getD r 0 * lengths.getD c 0) *
            fcos (angles.getD r 0 - angles.getD c 0) := by
  intro r hr c hc
  rw [Finset.mem_Icc] at hr hc
  rw [set_mass_matrix_entry _ _ _ _ (by simp [NPendulumMath.new]; omega)
    (by simp [NPendulumMath.new]; omega)]
  simp only [NPendulumMath.new]
  have er : r - 1 + 1 = r := by omega
  have ec : c - 1 + 1 = c := by omega
  rw [er, ec]
  congr 1
  congr 1
  rw [lsum_drop, ← Nat.Ico_succ_right, Finset.sum_Ico_eq_sum_range, hm]

/-- C4: every entry of the vector returned by `set_grav_matrix` satisfies
`G[i] = (Σ masses[k] for k from i to n) * g * lengths[i] * sin(angles[i])` with
`g = 9.81 = 981/100`; in particular the gravity term applies the sine function to the
angle, not the raw angle. -/
theorem grav_vector_entry_formula (fsin : ℚ → ℚ) (n : ℕ)
    (masses lengths angles ang_vels : List ℚ)
    (_hn : 2 ≤ n) (hm : masses.length = n + 1) :
    ∀ i ∈ Finset.Icc 1 n,
      (((NPendulumMath.new n masses lengths angles ang_vels).set_grav_matrix fsin).getD
          (i-1) 0)
        = (∑ k ∈ Finset.Icc i n, masses.getD k 0) * (981/100) * lengths.getD i 0 *
            fsin (angles.getD i 0) := by
  intro i hi
  rw [Finset.mem_Icc] at hi
  rw [set_grav_matrix_entry _ _ _ (by simp [NPendulumMath.new]; omega)]
  simp only [NPendulumMath.new]
  have ei : i - 1 + 1 = i := by omega
  rw [ei]
  congr 2
  rw [lsum_drop, ← Nat.Ico_succ_right, Finset.sum_Ico_eq_sum_range, hm]

/-- C6: for every `n ≥ 2` and all parameter/configuration sequences, the mass matrix
is symmetric, `M[i][j] = M[j][i]` for `i, j` in `1..n` — a consequence of the `max`
and of the evenness of the cosine (`fcos (-x) = fcos x`). -/
theorem mass_matrix_symmetric (fcos : ℚ → ℚ) (n : ℕ)
    (masses lengths angles ang_vels : List ℚ)
    (_hn : 2 ≤ n) (heven : ∀ x, fcos (-x) = fcos x) :
    ∀ i ∈ Finset.Icc 1 n, ∀ j ∈ Finset.Icc 1 n,
      ((((NPendulumMath.new n masses lengths angles ang_vels).set_mass_matrix fcos).getD
          (i-1) []).getD (j-1) 0)
        = ((((NPendulumMath.new n masses lengths angles ang_vels).set_mass_matrix
            fcos).getD (j-1) []).getD (i-1) 0) := by
  intro i hi j hj
  rw [Finset.mem_Icc] at hi hj
  rw [set_mass_matrix_entry _ _ _ _ (by simp [NPendulumMath.new]; omega)
      (by simp [NPendulumMath.new]; omega),
    set_mass_matrix_entry _ _ _ _ (by simp [NPendulumMath.new]; omega)
      (by simp [NPendulumMath.new]; omega)]
  simp only [NPendulumMath.new]
  have ei : i - 1 + 1 = i := by omega
  have ej : j - 1 + 1 = j := by omega
  rw [ei, ej, max_comm j i,
    mul_comm (List.getD lengths j 0) (List.getD lengths i 0),
    show List.getD angles j 0 - List.getD angles i 0
        = -(List.getD angles i 0 - List.getD angles j 0) by ring,
    heven]

/-! ## Independence from the dummy slot (claim C10) -/

/-- Two lists of length `n+1` that agree on indices `1..n` have equal tails `l[k..]`
for every `k ≥ 1`. -/
lemma drop_eq_of_agree (n : ℕ) (l1 l2 : List ℚ) (h1 : l1.length = n+1)
    (h2 : l2.length = n+1) (h : ∀ i ∈ Finset.Icc 1 n, l1.getD i 0 = l2.getD i 0)
    (k : ℕ) (hk : 1 ≤ k) : l1.drop k = l2.drop k := by
  apply List.ext_getElem (by simp [h1, h2])
  intro i hi1 hi2
  rw [List.getElem_drop, List.getElem_drop]
  have hlen : i < l1.length - k := by simpa using hi1
  have hk2 : k + i < l1.length := by omega
  have hk3 : k + i < l2.length := by omega
  rw [← List.getD_eq_getElem l1 0 hk2, ← List.getD_eq_getElem l2 0 hk3]
  exact h (k+i) (Finset.mem_Icc.mpr (by omega))

/-- C10: the outputs of `set_mass_matrix`, `set_centripetal_matrix` and
`set_grav_matrix` do not depend on the dummy index-0 slots — two `NPendulumMath`
instances agreeing on `n` and on indices `1..n` of all four sequences (with the masses
lists of representation length `n+1`) produce identical matrices and vectors. -/
theorem dummy_slot_independence (fcos fsin : ℚ → ℚ) (n : ℕ)
    (m1 l1 a1 v1 m2 l2 a2 v2 : List ℚ)
    (hm1 : m1.length = n + 1) (hm2 : m2.length = n + 1)
    (hm : ∀ i ∈ Finset.Icc 1 n, m1.getD i 0 = m2.getD i 0)
    (hl : ∀ i ∈ Finset.Icc 1 n, l1.getD i 0 = l2.getD i 0)
    (ha : ∀ i ∈ Finset.Icc 1 n, a1.getD i 0 = a2.getD i 0)
    (hv : ∀ i ∈ Finset.Icc 1 n, v1.getD i 0 = v2.getD i 0) :
    (NPendulumMath.new n m1 l1 a1 v1).set_mass_matrix fcos
      = (NPendulumMath.new n m2 l2 a2 v2).set_mass_matrix fcos ∧
    (NPendulumMath.new n m1 l1 a1 v1).set_centripetal_matrix fsin
      = (NPendulumMath.new n m2 l2 a2 v2).set_centripetal_matrix fsin ∧
    (NPendulumMath.new n m1 l1 a1 v1).set_grav_matrix fsin
      = (NPendulumMath.new n m2 l2 a2 v2).set_grav_matrix fsin := by
  have hdrop : ∀ k, 1 ≤ k → m1.drop k = m2.drop k :=
    fun k hk => drop_eq_of_agree n m1 m2 hm1 hm2 hm k hk
  refine ⟨?_, ?_, ?_⟩
  · unfold NPendulumMath.set_mass_matrix
    simp only [NPendulumMath.new]
    refine List.map_congr_left (fun r hr => ?_)
    rw [List.mem_range] at hr
    refine List.map_congr_left (fun c hc => ?_)
    rw [List.mem_range] at hc
    rw [hdrop _ (by omega),
      hl (r+1) (Finset.mem_Icc.mpr (by omega)), hl (c+1) (Finset.mem_Icc.mpr (by omega)),
      ha (r+1) (Finset.mem_Icc.mpr (by omega)), ha (c+1) (Finset.mem_Icc.mpr (by omega))]
  · unfold NPendulumMath.set_centripetal_matrix
    simp only [NPendulumMath.new]
    refine List.map_congr_left (fun i hi => ?_)
    rw [List.mem_range] at hi
    refine foldl_congr_mem _ _ _ _ (fun acc j hj => ?_)
    rw [List.mem_range] at hj
    rw [hdrop _ (by omega),
      hl (i+1) (Finset.mem_Icc.mpr (by omega)), hl (j+1) (Finset.mem_Icc.mpr (by omega)),
      ha (i+1) (Finset.mem_Icc.mpr (by omega)), ha (j+1) (Finset.mem_Icc.mpr (by omega)),
      hv (j+1) (Finset.mem_Icc.mpr (by omega))]
  · unfold NPendulumMath.set_grav_matrix
    simp only [NPendulumMath.new]
    refine List.map_congr_left (fun i hi => ?_)
    rw [List.mem_range] at hi
    rw [hdrop _ (by omega),
      hl (i+1) (Finset.mem_Icc.mpr (by omega)),
      ha (i+1) (Finset.mem_Icc.mpr (by omega))]

/-! ## The equilibrium state (claim C7) -/

/-- `getD` into an all-zero replicate is zero (also out of range). -/
lemma getD_replicate_zero (m i : ℕ) : (List.replicate m (0:ℚ)).getD i 0 = 0 :=
  getD_zero_of_all_zero _ (by simp) i

/-- A map over `List.range` of an everywhere-zero function is an all-zero list. -/
lemma map_range_zero (n : ℕ) (F : ℕ → ℚ) (hF : ∀ i, F i = 0) :
    (List.range n).map F = List.replicate n 0 := by
  have h1 : (List.range n).map F = (List.range n).map (fun _ => (0:ℚ)) :=
    List.map_congr_left (fun i _ => hF i)
  rw [h1, List.map_const']
  simp

/-- With all angular velocities zero, every centripetal entry vanishes (each term
carries a factor `ω_j²`). -/
lemma centripetal_zero (fsin : ℚ → ℚ) (m : NPendulumMath)
    (hv : ∀ x ∈ m.ang_vels, x = 0) :
    m.set_centripetal_matrix fsin = List.replicate m.n 0 := by
  unfold NPendulumMath.set_centripetal_matrix
  exact map_range_zero m.n _
    (fun i0 => foldl_fixed _ _ _
      (fun a j0 _ => by simp only [getD_zero_of_all_zero _ hv]; ring))

/-- With all angles zero and `fsin 0 = 0`, every gravity entry vanishes. -/
lemma grav_zero (fsin : ℚ → ℚ) (m : NPendulumMath) (hsin : fsin 0 = 0)
    (ha : ∀ x ∈ m.angles, x = 0) :
    m.set_grav_matrix fsin = List.replicate m.n 0 := by
  unfold NPendulumMath.set_grav_matrix
  exact map_range_zero m.n _
    (fun i0 => by simp only [getD_zero_of_all_zero _ ha, hsin]; ring)

/-- Swapping two positions of an all-zero vector keeps it all-zero. -/
lemma all_zero_swapVec (v : List ℚ) (i j : ℕ) (h : ∀ x ∈ v, x = 0) :
    ∀ x ∈ swapVec v i j, x = 0 := by
  unfold swapVec
  rw [getD_zero_of_all_zero v h j, getD_zero_of_all_zero v h i]
  exact all_zero_set _ _ (all_zero_set _ _ h)

/-- Row elimination keeps an all-zero right-hand side all-zero. -/
lemma elimRow_pres_rhs (n i : ℕ) (st : List (List ℚ) × List ℚ) (k : ℕ)
    (h : ∀ x ∈ st.2, x = 0) : ∀ x ∈ (elimRow n i st k).2, x = 0 := by
  simp only [elimRow]
  rw [getD_zero_of_all_zero _ h k, getD_zero_of_all_zero _ h i]
  simp only [mul_zero, add_zero]
  exact all_zero_set _ _ h

/-- A whole pivot step keeps an all-zero right-hand side all-zero. -/
lemma pivotStep_pres_rhs (n : ℕ) (st : List (List ℚ) × List ℚ) (i : ℕ)
    (h : ∀ x ∈ st.2, x = 0) : ∀ x ∈ (pivotStep n st i).2, x = 0 := by
  simp only [pivotStep]
  refine foldl_preserves (fun st2 : List (List ℚ) × List ℚ => ∀ x ∈ st2.2, x = 0)
    _ _ _ ?_ ?_
  · intro st2 k hst2
    exact elimRow_pres_rhs n i st2 k hst2
  · exact all_zero_swapVec _ _ _ h

/-- Back-substitution with an all-zero right-hand side returns the zero vector
(regardless of the matrix: every computed `x[i]` is `(0 - 0) / pivot = 0`). -/
lemma backSubstitute_zero (n : ℕ) (mat : List (List ℚ)) (rhs : List ℚ)
    (hb : ∀ x ∈ rhs, x = 0) : backSubstitute n mat rhs = List.replicate n 0 := by
  rw [List.eq_replicate_iff]
  refine ⟨backSubstitute_length n mat rhs, ?_⟩
  unfold backSubstitute
  refine foldl_preserves (fun x : List ℚ => ∀ y ∈ x, y = 0) _ _ _ ?_ (by simp)
  intro x i hxz
  have hv : (rhs.getD i 0 - (List.range' (i+1) (n - (i+1))).foldl
      (fun s j => s + getM mat i j * x.getD j 0) 0) / getM mat i i = 0 := by
    rw [foldl_fixed _ _ _ (fun a j _ => by rw [getD_zero_of_all_zero _ hxz j]; ring),
      getD_zero_of_all_zero _ hb i]
    simp
  simp only [hv]
  exact all_zero_set _ _ hxz

/-- `solve_linear_system` on any matrix with an all-zero right-hand side returns the
zero vector. -/
lemma solve_linear_system_zero (a : List (List ℚ)) (b : List ℚ)
    (hb : ∀ x ∈ b, x = 0) : solve_linear_system a b = List.replicate b.length 0 := by
  simp only [solve_linear_system]
  apply backSubstitute_zero
  exact foldl_preserves (fun st : List (List ℚ) × List ℚ => ∀ x ∈ st.2, x = 0)
    (pivotStep b.length) (List.range b.length) (a, b)
    (fun st i h => pivotStep_pres_rhs b.length st i h) hb

/-- With zero angles and velocities the computed accelerations are all zero. -/
lemma accelerations_zero (fcos fsin : ℚ → ℚ) (s : NPendulumSolver) (hsin : fsin 0 = 0)
    (angles ang_vels : List ℚ) (ha : ∀ x ∈ angles, x = 0) (hv : ∀ x ∈ ang_vels, x = 0) :
    s.accelerations fcos fsin angles ang_vels = List.replicate s.n 0 := by
  simp only [NPendulumSolver.accelerations]
  have hc : (NPendulumMath.new s.n s.masses s.lengths angles ang_vels).set_centripetal_matrix fsin
      = List.replicate s.n 0 :=
    centripetal_zero fsin (NPendulumMath.new s.n s.masses s.lengths angles ang_vels) hv
  have hg : (NPendulumMath.new s.n s.masses s.lengths angles ang_vels).set_grav_matrix fsin
      = List.replicate s.n 0 :=
    grav_zero fsin (NPendulumMath.new s.n s.masses s.lengths angles ang_vels) hsin ha
  rw [hc, hg]
  rw [map_range_zero s.n _ (fun i => by rw [getD_replicate_zero]; simp)]
  rw [solve_linear_system_zero _ _ (by simp)]
  simp

/-- At the equilibrium state all derivative components are zero. -/
lemma deriv_zero (fcos fsin : ℚ → ℚ) (s : NPendulumSolver) (hsin : fsin 0 = 0) (t : ℚ) :
    s.deriv fcos fsin (List.replicate (2 * s.n) 0) t = List.replicate (2 * s.n) 0 := by
  simp only [NPendulumSolver.deriv]
  have hdt : ((List.replicate (2 * s.n) (0:ℚ)).drop s.n).take s.n = List.replicate s.n 0 := by
    rw [List.drop_replicate, List.take_replicate]
    congr 1
    omega
  have htk : (List.replicate (2 * s.n) (0:ℚ)).take s.n = List.replicate s.n 0 := by
    rw [List.take_replicate]
    congr 1
    omega
  rw [hdt, htk]
  rw [accelerations_zero fcos fsin s hsin _ _ (by simp) (by simp)]
  rw [← List.replicate_add]
  congr 1
  omega

/-- An RK4 step keeps the equilibrium state at zero. -/
lemma rk4_zero (fcos fsin : ℚ → ℚ) (s : NPendulumSolver) (hsin : fsin 0 = 0) (t dt : ℚ) :
    s.rk4_step fcos fsin (List.replicate (2 * s.n) 0) t dt = List.replicate (2 * s.n) 0 := by
  have hz : ∀ i, (List.replicate (2 * s.n) (0:ℚ)).getD i 0 = 0 :=
    getD_zero_of_all_zero _ (by simp)
  simp only [NPendulumSolver.rk4_step, List.length_replicate]
  rw [deriv_zero fcos fsin s hsin t]
  rw [map_range_zero (2 * s.n)
    (fun i => (List.replicate (2 * s.n) (0:ℚ)).getD i 0
      + 1/2 * dt * (List.replicate (2 * s.n) (0:ℚ)).getD i 0)
    (fun i => by simp only [hz]; ring)]
  rw [deriv_zero fcos fsin s hsin (t + 1/2 * dt)]
  rw [map_range_zero (2 * s.n)
    (fun i => (List.replicate (2 * s.n) (0:ℚ)).getD i 0
      + 1/2 * dt * (List.replicate (2 * s.n) (0:ℚ)).getD i 0)
    (fun i => by simp only [hz]; ring)]
  rw [deriv_zero fcos fsin s hsin (t + 1/2 * dt)]
  rw [map_range_zero (2 * s.n)
    (fun i => (List.replicate (2 * s.n) (0:ℚ)).getD i 0
      + dt * (List.replicate (2 * s.n) (0:ℚ)).getD i 0)
    (fun i => by simp only [hz]; ring)]
  rw [deriv_zero fcos fsin s hsin (t + dt)]
  rw [map_range_zero (2 * s.n)
    (fun i => (List.replicate (2 * s.n) (0:ℚ)).getD i 0
      + dt / 6 * ((List.replicate (2 * s.n) (0:ℚ)).getD i 0
        + 2 * (List.replicate (2 * s.n) (0:ℚ)).getD i 0
        + 2 * (List.replicate (2 * s.n) (0:ℚ)).getD i 0
        + (List.replicate (2 * s.n) (0:ℚ)).getD i 0))
    (fun i => by simp only [hz]; ring)]

/-- Every iterate of the integrator fixes the equilibrium state. -/
lemma simFrom_zero (fcos fsin : ℚ → ℚ) (s : NPendulumSolver) (hsin : fsin 0 = 0)
    (dt c : ℚ) (k : ℕ) :
    simFrom fcos fsin s dt (List.replicate (2 * s.n) 0) c k
      = List.replicate (2 * s.n) 0 := by
  induction k with
  | zero => rfl
  | succ k ih =>
    show s.rk4_step fcos fsin
      (simFrom fcos fsin s dt (List.replicate (2 * s.n) 0) c k) (c + (k : ℚ) * dt) dt = _
    rw [ih, rk4_zero fcos fsin s hsin]

/-- C7: if all initial angles and angular velocities are zero (all-zero 1-indexed
input lists), every state of the trajectory returned by `solve` is exactly the zero
vector of length `2n`, for any `n`, masses, lengths, `t_max` and `n_points` — in this
exact-arithmetic model the invariance is exact, not merely within tolerance. -/
theorem equilibrium_invariance (fcos fsin : ℚ → ℚ) (s : NPendulumSolver)
    (ia iv : List ℚ) (t_max : ℚ) (n_points : ℕ)
    (hsin : fsin 0 = 0)
    (hia : ia = List.replicate (s.n + 1) 0) (hiv : iv = List.replicate (s.n + 1) 0) :
    ∀ st ∈ (s.solve fcos fsin ia iv t_max n_points).2,
      st = List.replicate (2 * s.n) 0 := by
  subst hia hiv
  rw [solve_eq]
  have hy0 : ((List.replicate (s.n + 1) (0:ℚ)).drop 1).take s.n
      ++ ((List.replicate (s.n + 1) (0:ℚ)).drop 1).take s.n
      = List.replicate (2 * s.n) 0 := by
    rw [List.drop_replicate, List.take_replicate, ← List.replicate_add]
    congr 1
    omega
  rw [hy0]
  intro st hst
  rcases List.mem_cons.mp hst with rfl | hmem
  · rfl
  · obtain ⟨i, hi, rfl⟩ := List.mem_map.mp hmem
    exact simFrom_zero fcos fsin s hsin _ _ (i+1)

/-! ## Concrete witnesses -/

/-- Witness for C2 at a concrete 2-pendulum configuration with `t_max = 10`,
`n_points = 3` (`dt = 5`). -/
theorem solve_trajectory_samples_witness :
    ((NPendulumSolver.new 2 [0,1,1] [0,1,1]).solve (fun _ => 1) (fun _ => 0)
        [5,1,2] [7,3,4] 10 3).1.length = 3 ∧
    ((NPendulumSolver.new 2 [0,1,1] [0,1,1]).solve (fun _ => 1) (fun _ => 0)
        [5,1,2] [7,3,4] 10 3).2.getD 0 []
      = ([5,1,2] : List ℚ).drop 1 ++ ([7,3,4] : List ℚ).drop 1 ∧
    ((NPendulumSolver.new 2 [0,1,1] [0,1,1]).solve (fun _ => 1) (fun _ => 0)
        [5,1,2] [7,3,4] 10 3).1.getD (3-1) 0 = 10 ∧
    ((NPendulumSolver.new 2 [0,1,1] [0,1,1]).solve (fun _ => 1) (fun _ => 0)
        [5,1,2] [7,3,4] 10 3).2.getD 2 []
      = (NPendulumSolver.new 2 [0,1,1] [0,1,1]).rk4_step (fun _ => 1) (fun _ => 0)
          (((NPendulumSolver.new 2 [0,1,1] [0,1,1]).solve (fun _ => 1) (fun _ => 0)
            [5,1,2] [7,3,4] 10 3).2.getD (2-1) [])
          (((2 - 1 : ℕ) : ℚ) * (10 / ((3 - 1 : ℕ) : ℚ))) (10 / ((3 - 1 : ℕ) : ℚ)) := by
  have h := solve_trajectory_samples (fun _ => 1) (fun _ => 0)
    (NPendulumSolver.new 2 [0,1,1] [0,1,1]) [5,1,2] [7,3,4] 10 3
    (by norm_num) (by norm_num) rfl rfl
  exact ⟨h.1, h.2.2.1, h.2.2.2.2.1, h.2.2.2.2.2 2 (by decide)⟩

/-- Witness for C3 at `n = 2`, entry `(r, c) = (1, 2)`. -/
theorem mass_matrix_entry_formula_witness :
    ((((NPendulumMath.new 2 [0,1,1] [0,3,4] [0,1,2] [0,5,6]).set_mass_matrix
        (fun x => x)).getD (1-1) []).getD (2-1) 0)
      = (∑ k ∈ Finset.Icc (max 1 2) 2, ([0,1,1] : List ℚ).getD k 0) *
          (([0,3,4] : List ℚ).getD 1 0 * ([0,3,4] : List ℚ).getD 2 0) *
          (fun x => x) (([0,1,2] : List ℚ).getD 1 0 - ([0,1,2] : List ℚ).getD 2 0) :=
  mass_matrix_entry_formula (fun x => x) 2 [0,1,1] [0,3,4] [0,1,2] [0,5,6]
    (by norm_num) rfl 1 (by decide) 2 (by decide)

/-- Witness for C4 at `n = 2`, entry `i = 2`. -/
theorem grav_vector_entry_formula_witness :
    (((NPendulumMath.new 2 [0,1,1] [0,3,4] [0,1,2] [0,5,6]).set_grav_matrix
        (fun x => x)).getD (2-1) 0)
      = (∑ k ∈ Finset.Icc 2 2, ([0,1,1] : List ℚ).getD k 0) * (981/100) *
          ([0,3,4] : List ℚ).getD 2 0 * (fun x => x) (([0,1,2] : List ℚ).getD 2 0) :=
  grav_vector_entry_formula (fun x => x) 2 [0,1,1] [0,3,4] [0,1,2] [0,5,6]
    (by norm_num) rfl 2 (by decide)

/-- Witness for C6 at `n = 2`, entries `(1,2)` and `(2,1)`, with the even function
`x ↦ x·x` in place of the cosine. -/
theorem mass_matrix_symmetric_witness :
    ((((NPendulumMath.new 2 [0,1,1] [0,3,4] [0,1,2] [0,5,6]).set_mass_matrix
        (fun x => x * x)).getD (1-1) []).getD (2-1) 0)
      = ((((NPendulumMath.new 2 [0,1,1] [0,3,4] [0,1,2] [0,5,6]).set_mass_matrix
          (fun x => x * x)).getD (2-1) []).getD (1-1) 0) :=
  mass_matrix_symmetric (fun x => x * x) 2 [0,1,1] [0,3,4] [0,1,2] [0,5,6]
    (by norm_num) (fun x => by ring) 1 (by decide) 2 (by decide)

/-- Witness for C7: sample 1 of a concrete all-zero-initial-state run is the zero
state. -/
theorem equilibrium_invariance_witness :
    ((NPendulumSolver.new 2 [0,1,1] [0,1,1]).solve (fun x => x) (fun x => x)
        (List.replicate 3 0) (List.replicate 3 0) 10 5).2.getD 1 []
      = List.replicate 4 0 := by
  have hlen : ((NPendulumSolver.new 2 [0,1,1] [0,1,1]).solve (fun x => x) (fun x => x)
      (List.replicate 3 0) (List.replicate 3 0) 10 5).2.length = 5 :=
    ((solve_lengths (fun x => x) (fun x => x) (NPendulumSolver.new 2 [0,1,1] [0,1,1])
      (List.replicate 3 0) (List.replicate 3 0) 10 5).2).trans (by norm_num)
  have hmem : ((NPendulumSolver.new 2 [0,1,1] [0,1,1]).solve (fun x => x) (fun x => x)
      (List.replicate 3 0) (List.replicate 3 0) 10 5).2.getD 1 []
      ∈ ((NPendulumSolver.new 2 [0,1,1] [0,1,1]).solve (fun x => x) (fun x => x)
        (List.replicate 3 0) (List.replicate 3 0) 10 5).2 := by
    rw [List.getD_eq_getElem _ _ (by rw [hlen]; norm_num)]
    exact List.getElem_mem _
  exact equilibrium_invariance (fun x => x) (fun x => x)
    (NPendulumSolver.new 2 [0,1,1] [0,1,1]) (List.replicate 3 0) (List.replicate 3 0)
    10 5 rfl rfl rfl _ hmem

/-- Witness for C10: two instances that differ only in the dummy index-0 slots of all
four sequences produce identical outputs. -/
theorem dummy_slot_independence_witness :
    ((NPendulumMath.new 2 [9,1,1] [8,3,4] [7,1,2] [6,5,6]).set_mass_matrix (fun x => x)
      = (NPendulumMath.new 2 [0,1,1] [0,3,4] [0,1,2] [0,5,6]).set_mass_matrix
          (fun x => x)) ∧
    ((NPendulumMath.new 2 [9,1,1] [8,3,4] [7,1,2] [6,5,6]).set_centripetal_matrix
        (fun x => x)
      = (NPendulumMath.new 2 [0,1,1] [0,3,4] [0,1,2] [0,5,6]).set_centripetal_matrix
          (fun x => x)) ∧
    ((NPendulumMath.new 2 [9,1,1] [8,3,4] [7,1,2] [6,5,6]).set_grav_matrix (fun x => x)
      = (NPendulumMath.new 2 [0,1,1] [0,3,4] [0,1,2] [0,5,6]).set_grav_matrix
          (fun x => x)) :=
  dummy_slot_independence (fun x => x) (fun x => x) 2
    [9,1,1] [8,3,4] [7,1,2] [6,5,6] [0,1,1] [0,3,4] [0,1,2] [0,5,6]
    rfl rfl
    (by intro i hi; fin_cases hi <;> rfl)
    (by intro i hi; fin_cases hi <;> rfl)
    (by intro i hi; fin_cases hi <;> rfl)
    (by intro i hi; fin_cases hi <;> rfl)
